import Mathlib

/-!
Verification of the Automated-Sales-Bill generator.

The JavaScript sources are shallowly embedded over ℚ.  JS numbers are
modelled as exact rationals; `x.toFixed(n)` followed by `parseFloat` (or
unary `+`) is modelled as rounding to `n` decimal places with ties rounded
up (the positive-tie behaviour of `toFixed`; every concrete input used
below is tie-free, so the tie convention is never load-bearing).
`Math.random()` is modelled as an oracle stream `r : ℕ → ℚ`, and each call
site consumes the next element of the stream; a position counter `k` is
threaded through every function that draws randomness.  The JS `Map` used
for the inventory ledger is modelled as an association list of items
(insertion order preserved, keys unique as produced by `buildStockMap`).

The embedded code uses the executable arithmetic wrappers `qadd`, `qsub`,
`qmul`, `qdiv`, `qfloor`, `qround` defined below instead of the ambient
field operations of ℚ, so that closed runs of the embedded programs can
be evaluated by `decide`; each wrapper is proved equal to the
corresponding field operation and the proofs work with the ordinary
operations throughout.
-/

namespace BillGen

/-- Executable addition on ℚ (equal to `+`, see `qadd_eq`). -/
def qadd (a b : ℚ) : ℚ := Rat.divInt (a.num * b.den + b.num * a.den) (a.den * b.den)

/-- Executable subtraction on ℚ (equal to `-`, see `qsub_eq`). -/
def qsub (a b : ℚ) : ℚ := Rat.divInt (a.num * b.den - b.num * a.den) (a.den * b.den)

/-- Executable multiplication on ℚ (equal to `*`, see `qmul_eq`). -/
def qmul (a b : ℚ) : ℚ := Rat.divInt (a.num * b.num) (a.den * b.den)

/-- Executable division on ℚ (equal to `/`, see `qdiv_eq`; both send a
zero divisor to 0). -/
def qdiv (a b : ℚ) : ℚ := Rat.divInt (a.num * b.den) (a.den * b.num)

/-- Executable floor on ℚ (equal to `Int.floor`, see `qfloor_eq`). -/
def qfloor (q : ℚ) : ℤ := q.num / (q.den : ℤ)

/-- Executable round-half-up on ℚ (equal to `round`, see `qround_eq`). -/
def qround (q : ℚ) : ℤ := qfloor (qadd q (mkRat 1 2))

theorem qadd_eq (a b : ℚ) : qadd a b = a + b := by
  rw [qadd, Rat.divInt_eq_div]
  conv_rhs => rw [← Rat.num_div_den a, ← Rat.num_div_den b]
  have ha : ((a.den : ℚ)) ≠ 0 := by exact_mod_cast a.den_nz
  have hb : ((b.den : ℚ)) ≠ 0 := by exact_mod_cast b.den_nz
  push_cast
  field_simp

theorem qsub_eq (a b : ℚ) : qsub a b = a - b := by
  rw [qsub, Rat.divInt_eq_div]
  conv_rhs => rw [← Rat.num_div_den a, ← Rat.num_div_den b]
  have ha : ((a.den : ℚ)) ≠ 0 := by exact_mod_cast a.den_nz
  have hb : ((b.den : ℚ)) ≠ 0 := by exact_mod_cast b.den_nz
  push_cast
  field_simp
  ring

theorem qmul_eq (a b : ℚ) : qmul a b = a * b := by
  rw [qmul, Rat.divInt_eq_div]
  conv_rhs => rw [← Rat.num_div_den a, ← Rat.num_div_den b]
  have ha : ((a.den : ℚ)) ≠ 0 := by exact_mod_cast a.den_nz
  have hb : ((b.den : ℚ)) ≠ 0 := by exact_mod_cast b.den_nz
  push_cast
  field_simp

theorem qdiv_eq (a b : ℚ) : qdiv a b = a / b := by
  rcases eq_or_ne b 0 with hb0 | hb0
  · subst hb0
    simp [qdiv, Rat.divInt_eq_div]
  · rw [qdiv, Rat.divInt_eq_div]
    conv_rhs => rw [← Rat.num_div_den a, ← Rat.num_div_den b]
    have ha : ((a.den : ℚ)) ≠ 0 := by exact_mod_cast a.den_nz
    have hbd : ((b.den : ℚ)) ≠ 0 := by exact_mod_cast b.den_nz
    have hn : ((b.num : ℚ)) ≠ 0 := by exact_mod_cast Rat.num_ne_zero.mpr hb0
    push_cast
    field_simp

theorem qfloor_eq (q : ℚ) : qfloor q = ⌊q⌋ := Rat.floor_def.symm

theorem qround_eq (q : ℚ) : qround q = round q := by
  rw [qround, qfloor_eq, qadd_eq, round_eq]
  norm_num [Rat.mkRat_eq_div]

/-- JS `+(x).toFixed(2)`: round to 2 decimal places. -/
def round2 (q : ℚ) : ℚ := Rat.divInt (qround (qmul q 100)) 100

/-- JS `parseFloat((x).toFixed(3))`: round to 3 decimal places. -/
def round3 (q : ℚ) : ℚ := Rat.divInt (qround (qmul q 1000)) 1000

theorem round2_eq (q : ℚ) : round2 q = (round (q * 100) : ℚ) / 100 := by
  rw [round2, Rat.divInt_eq_div, qround_eq, qmul_eq]
  norm_num

theorem round3_eq (q : ℚ) : round3 q = (round (q * 1000) : ℚ) / 1000 := by
  rw [round3, Rat.divInt_eq_div, qround_eq, qmul_eq]
  norm_num

/-- An inventory item as stored in the stock map built by `buildStockMap`:
the numeric columns are already normalised to numbers, `singleUnitCost`
is the precomputed taxed cost of one unit, and `originalIsFloat` records
whether the initially loaded quantity was non-integral (only the
`part_002` variant stores and consults this flag). -/
structure Item where
  name : String
  price : ℚ
  gst : ℚ
  cess : ℚ
  mrp : ℚ
  remainingQty : ℚ
  singleUnitCost : ℚ
  originalIsFloat : Bool
deriving DecidableEq, Repr

/-- `calculateItemTotal(price, qty, gstPercent, cessPercent, mrp)` with all
arguments present: `+(base + gstTax + cessTax).toFixed(2)` where
`base = price*qty`, `gstTax = base*gstPercent/100`,
`cessTax = mrp*qty*cessPercent/100`. -/
def calculateItemTotal (price qty gstPercent cessPercent mrp : ℚ) : ℚ :=
  let base := qmul price qty
  let gstTax := qdiv (qmul base gstPercent) 100
  let cessTax := qdiv (qmul (qmul mrp qty) cessPercent) 100
  round2 (qadd (qadd base gstTax) cessTax)

theorem calculateItemTotal_eq (price qty gstPercent cessPercent mrp : ℚ) :
    calculateItemTotal price qty gstPercent cessPercent mrp =
      round2 (price * qty + price * qty * gstPercent / 100 + mrp * qty * cessPercent / 100) := by
  rw [calculateItemTotal]
  simp only [qadd_eq, qmul_eq, qdiv_eq]

/-- `calculateItemTotal` as callable from JS with trailing arguments
omitted (`undefined`).  `cessPercent` and `mrp` are coalesced by `|| 0`,
but `gstPercent` is used bare in `(base * gstPercent) / 100`, so a missing
`gstPercent` turns the whole result into `NaN` (modelled as `none`). -/
def calculateItemTotalOpt (price qty : ℚ) (gstPercent cessPercent mrp : Option ℚ) : Option ℚ :=
  match gstPercent with
  | none => none
  | some g => some (calculateItemTotal price qty g (cessPercent.getD 0) (mrp.getD 0))

/-- `getItemBillTotal(item, qty)`: the per-line wrapper (the `|| 0` guards
are identities here because `buildStockMap` already normalised the
fields to numbers). -/
def getItemBillTotal (item : Item) (qty : ℚ) : ℚ :=
  calculateItemTotal item.price qty item.gst item.cess item.mrp

/-- `canSellInFloat(item, roomLeft)` of `part_000`/`part_001`: a decimal
quantity is allowed when the MRP is above 10000, when the current
remaining stock is itself non-integral (`remainingQty % 1 !== 0`), or
when one whole unit does not fit in the budget room left. -/
def canSellInFloat (item : Item) (roomLeft : ℚ) : Bool :=
  if 10000 < item.mrp then true
  else if item.remainingQty.den ≠ 1 then true
  else if roomLeft < item.singleUnitCost then true
  else false

/-- The Fractional-Sale Policy as worded by the spec: a non-integer
quantity is permitted iff the MRP exceeds 10000, or the remaining
quantity is already non-integral (not equal to any integer), or the cost
of one whole unit exceeds the room left. -/
def floatPolicySpec (item : Item) (roomLeft : ℚ) : Prop :=
  10000 < item.mrp ∨ (¬ ∃ n : ℤ, item.remainingQty = (n : ℚ)) ∨
    roomLeft < item.singleUnitCost

/-- A rational that is a whole number of hundredths (the form every
`toFixed(2)`-rounded amount has). -/
def IsCenti (q : ℚ) : Prop := ∃ k : ℤ, q = (k : ℚ) / 100

theorem isCenti_round2 (q : ℚ) : IsCenti (round2 q) :=
  ⟨round (q * 100), by rw [round2_eq]⟩

theorem isCenti_add {a b : ℚ} (ha : IsCenti a) (hb : IsCenti b) : IsCenti (a + b) := by
  obtain ⟨m, rfl⟩ := ha
  obtain ⟨n, rfl⟩ := hb
  exact ⟨m + n, by push_cast; ring⟩

theorem round2_of_isCenti {q : ℚ} (h : IsCenti q) : round2 q = q := by
  obtain ⟨k, rfl⟩ := h
  have h100 : (100 : ℚ) ≠ 0 := by norm_num
  rw [round2_eq, div_mul_cancel₀ _ h100, round_intCast]

theorem abs_round3_sub (q : ℚ) : |round3 q - q| ≤ 1 / 1000 := by
  have h := abs_sub_round (q * 1000)
  rw [round3_eq]
  have heq : (round (q * 1000) : ℚ) / 1000 - q =
      ((round (q * 1000) : ℚ) - q * 1000) / 1000 := by ring
  rw [heq, abs_div]
  have h1000 : |(1000 : ℚ)| = 1000 := by norm_num
  rw [h1000]
  rw [div_le_div_iff₀ (by norm_num) (by norm_num)]
  have habs : |(round (q * 1000) : ℚ) - q * 1000| = |q * 1000 - (round (q * 1000) : ℚ)| :=
    abs_sub_comm _ _
  rw [habs]
  nlinarith [h]

end BillGen

namespace BillGen

/-- One line of a formatted bill, as produced by `formatResult`. -/
structure BillLine where
  name : String
  qty : ℚ
  unitPrice : ℚ
  gstPercent : ℚ
  cessPercent : ℚ
  mrp : ℚ
  cessTaxAmount : ℚ
  itemTotal : ℚ
  date : String
deriving DecidableEq, Repr

/-- The object returned by `generateBillFromMap`.  The failure object of
the source has no `targetAmount` field; it is modelled as 0.
`tempUsedMap` is only populated by the `part_002` variant (the consumed
quantities reported back to the caller); the other variants leave it
empty. -/
structure Bill where
  items : List BillLine
  total : ℚ
  targetAmount : ℚ
  success : Bool
  tempUsedMap : List (String × ℚ)
deriving DecidableEq, Repr

/-- The `{ items: [], total: 0, success: false }` failure object. -/
def failBill : Bill := ⟨[], 0, 0, false, []⟩

/-- An `{ item, qty, cost }` entry of the in-progress `currentBill`. -/
structure Pick where
  item : Item
  qty : ℚ
  cost : ℚ
deriving DecidableEq, Repr

inductive Mode where
  | RANGE
  | EXACT
deriving DecidableEq, Repr

/-- Lookup in the `tempUsed` map: `tempUsed.get(name) || 0`. -/
def lookupUsed (used : List (String × ℚ)) (n : String) : ℚ :=
  match used.find? (fun p => p.1 = n) with
  | some p => p.2
  | none => 0

/-- `tempUsed.set(name, v)`: replace the binding if present, else append. -/
def setUsed (used : List (String × ℚ)) (n : String) (v : ℚ) : List (String × ℚ) :=
  match used with
  | [] => [(n, v)]
  | p :: rest => if p.1 = n then (n, v) :: rest else p :: setUsed rest n v

/-- Scratch state of one composition attempt: the picked lines, their
accumulated total, the picked count, the per-attempt consumed-quantity
map, and the position in the random stream. -/
structure AttemptState where
  bill : List Pick
  total : ℚ
  picked : ℕ
  used : List (String × ℚ)
  k : ℕ
deriving Repr

/-- Append a pick to the attempt (the shared tail of the item picker in
all variants): `if (qty <= 0) continue;` then push, accumulate and mark
the consumed quantity in the scratch map. -/
def addPick (item : Item) (qty : ℚ) (s : AttemptState) : AttemptState :=
  if qty ≤ 0 then s
  else
    let cost := getItemBillTotal item qty
    { bill := s.bill ++ [⟨item, qty, cost⟩]
      total := qadd s.total cost
      picked := s.picked + 1
      used := setUsed s.used item.name (qadd (lookupUsed s.used item.name) qty)
      k := s.k }

/-- `formatResult(billArray, total, target, date)`. -/
def formatResult (billArray : List Pick) (total target : ℚ) (date : String) : Bill :=
  { items := billArray.map (fun p =>
      { name := p.item.name
        qty := p.qty
        unitPrice := p.item.price
        gstPercent := p.item.gst
        cessPercent := p.item.cess
        mrp := p.item.mrp
        cessTaxAmount := qdiv (qmul (qmul p.item.mrp p.qty) p.item.cess) 100
        itemTotal := p.cost
        date := date })
    total := round2 total
    targetAmount := target
    success := true
    tempUsedMap := [] }

/-- Lookup an item of the stock map by name (JS `stockMap.get(name)`). -/
def findItem (stock : List Item) (n : String) : Option Item :=
  stock.find? (fun it => it.name = n)

/-- Commit one picked line into the ledger:
`realItem.remainingQty = parseFloat((realItem.remainingQty - entry.qty).toFixed(3))`. -/
def commitOne (stock : List Item) (p : Pick) : List Item :=
  stock.map (fun it =>
    if it.name = p.item.name then
      { it with remainingQty := round3 (qsub it.remainingQty p.qty) }
    else it)

/-- Commit every line of an accepted bill into the ledger
(`currentBill.forEach(...)` in the success branch). -/
def commitBill (stock : List Item) (bill : List Pick) : List Item :=
  bill.foldl commitOne stock

/-- Swap two positions of a list, leaving the list unchanged when an
index is out of range.  (`Math.random()` always lies in `[0,1)`, so the
Fisher-Yates index below is always in range on real executions.) -/
def listSwap (l : List Item) (i j : ℕ) : List Item :=
  if hi : i < l.length then
    if hj : j < l.length then
      (l.set i (l.get ⟨j, hj⟩)).set j (l.get ⟨i, hi⟩)
    else l
  else l

/-- The descending loop of `shuffleArray` (Fisher-Yates): at JS index
`i ≥ 1` draw `j = Math.floor(Math.random() * (i + 1))` and swap. -/
def fyAux (r : ℕ → ℚ) : ℕ → List Item → ℕ → List Item × ℕ
  | k, l, 0 => (l, k)
  | k, l, i + 1 =>
    let j := (qfloor (qmul (r k) ((i + 2 : ℕ) : ℚ))).toNat
    fyAux r (k + 1) (listSwap l (i + 1) j) i

/-- `shuffleArray` on a copied list. -/
def shuffleList (r : ℕ → ℚ) (k : ℕ) (l : List Item) : List Item × ℕ :=
  fyAux r k l (l.length - 1)

/-- Result of one composer call: the bill, the post-call stock map and
the new position in the random stream. -/
structure GenOut where
  bill : Bill
  stock : List Item
  k : ℕ
deriving Repr

/-- The tier table `baseAttempts`: (minimum item count, base attempts). -/
def baseAttempts : List (ℕ × ℕ) := [(4, 50), (3, 50), (2, 100), (1, 20)]

/-- The acceptance rule of the validation step:
RANGE needs `targetMin <= total <= targetMax`, EXACT needs
`|targetMax - total| <= margin` (the tolerance is the margin), both need
`pickedCount >= minItems`. -/
def validate (mode : Mode) (tMin tMax margin : ℚ) (minItems : ℕ) (total : ℚ) (picked : ℕ) : Bool :=
  match mode with
  | Mode.RANGE => decide (tMin ≤ total ∧ total ≤ tMax ∧ minItems ≤ picked)
  | Mode.EXACT => decide (|qsub tMax total| ≤ margin ∧ minItems ≤ picked)

/-- The safe-landing rule: committing the bill must leave the day budget
either at most the margin or strictly above 50. -/
def safeLanding (dayRem total margin : ℚ) : Bool :=
  decide (qsub dayRem total ≤ margin ∨ 50 < qsub dayRem total)

end BillGen

namespace BillGen

namespace P1

/-- The body of one iteration of the item picker of `part_001`
(`generateBillFromMap`, the `ITEM PICKER` loop, after the done-condition
check): skip near-empty scratch stock, skip a tiny budget gap, then pick
either a decimal quantity (random 20%-100% of the fittable maximum,
factor 0.9 on the deterministic attempt 0, halved while the bill still
needs more distinct items) or an integer quantity (random 1..intMax,
capped at 2 while more variety is needed).  A zero `singleUnitCost`
gives `roomLeft / singleUnitCost = Infinity` in JS, so the budget cap
degenerates to the stock cap in that case. -/
def pickStep (r : ℕ → ℚ) (tMax : ℚ) (minItems attempt : ℕ) (item : Item)
    (s : AttemptState) : AttemptState :=
  let actualRemaining := max 0 (qsub item.remainingQty (lookupUsed s.used item.name))
  if actualRemaining ≤ mkRat 1 1000 then s
  else
    let roomLeft := qsub tMax s.total
    if roomLeft < 1 then s
    else
      let allowFloat := canSellInFloat item roomLeft
      let maxQtyBudget := if item.singleUnitCost = 0 then actualRemaining
        else qdiv roomLeft item.singleUnitCost
      let absMax := min actualRemaining maxQtyBudget
      if allowFloat then
        if absMax < mkRat 1 100 then s
        else
          let factor : ℚ := if attempt = 0 then mkRat 9 10
            else qadd (qmul (r s.k) (mkRat 8 10)) (mkRat 2 10)
          let k1 : ℕ := if attempt = 0 then s.k else s.k + 1
          let qty0 := round2 (qmul absMax factor)
          let qty := if s.picked < minItems ∧ qdiv absMax 2 < qty0 then round2 (qdiv absMax 2)
            else qty0
          addPick item qty { s with k := k1 }
      else
        let intMax : ℤ := qfloor absMax
        if intMax < 1 then s
        else
          let intMax2 : ℤ := if s.picked < minItems then min intMax 2 else intMax
          let qty : ℚ := ((qfloor (qmul (r s.k) (intMax2 : ℚ)) + 1 : ℤ) : ℚ)
          addPick item qty { s with k := s.k + 1 }

/-- The item picker of `part_001`: walk the selection pool; once the
minimum total and item count are met, break immediately on the
deterministic attempt 0 and with probability 1/2 otherwise (the random
draw is consumed either way). -/
def pickItems (r : ℕ → ℚ) (tMin tMax : ℚ) (minItems attempt : ℕ) :
    List Item → AttemptState → AttemptState
  | [], s => s
  | item :: rest, s =>
    if tMin ≤ s.total ∧ minItems ≤ s.picked then
      if attempt = 0 then s
      else if mkRat 1 2 < r s.k then { s with k := s.k + 1 }
      else pickItems r tMin tMax minItems attempt rest
        (pickStep r tMax minItems attempt item { s with k := s.k + 1 })
    else pickItems r tMin tMax minItems attempt rest (pickStep r tMax minItems attempt item s)

/-- The fixed context of one `part_001` composer call. -/
structure Ctx where
  r : ℕ → ℚ
  stock : List Item
  availableItems : List Item
  expensiveFirst : List Item
  tMin : ℚ
  tMax : ℚ
  dayRem : ℚ
  date : String
  margin : ℚ
  mode : Mode

/-- One attempt of `part_001`: run the picker from an empty scratch
state over the given pool, then validate and apply the safe-landing
check; on acceptance commit the scratch picks into the ledger and return
the formatted bill. -/
def attemptOutcome (ctx : Ctx) (minItems attempt : ℕ) (pool : List Item) (k : ℕ) :
    Option GenOut × ℕ :=
  let s := pickItems ctx.r ctx.tMin ctx.tMax minItems attempt pool ⟨[], 0, 0, [], k⟩
  if validate ctx.mode ctx.tMin ctx.tMax ctx.margin minItems s.total s.picked
      ∧ safeLanding ctx.dayRem s.total ctx.margin then
    (some ⟨formatResult s.bill s.total ctx.tMax ctx.date, commitBill ctx.stock s.bill, s.k⟩, s.k)
  else (none, s.k)

/-- The attempt loop of one tier: attempt 0 uses the expensive-first
pool, later attempts a fresh Fisher-Yates shuffle of the available
items. -/
def runAttempts (ctx : Ctx) (minItems : ℕ) : ℕ → ℕ → ℕ → Option GenOut × ℕ
  | 0, _, k => (none, k)
  | n + 1, attempt, k =>
    let pk : List Item × ℕ :=
      if attempt = 0 then (ctx.expensiveFirst, k) else shuffleList ctx.r k ctx.availableItems
    match attemptOutcome ctx minItems attempt pk.1 pk.2 with
    | (some out, _) => (some out, out.k)
    | (none, k2) => runAttempts ctx minItems n (attempt + 1) k2

/-- The tier loop of `part_001`: skip tiers needing more distinct items
than are available, scale the attempt budget by the effort multiplier
(at least one attempt), and fall through to the next tier on
exhaustion.  (The `minPossibleCost` feasibility probe of the source has
an empty body and no observable effect, so it is not modelled.) -/
def runTiers (ctx : Ctx) (effort : ℚ) : List (ℕ × ℕ) → ℕ → GenOut
  | [], k => ⟨failBill, ctx.stock, k⟩
  | t :: rest, k =>
    if ctx.availableItems.length < t.1 then runTiers ctx effort rest k
    else
      let maxAttempts := max 1 (qfloor (qmul ((t.2 : ℕ) : ℚ) effort)).toNat
      match runAttempts ctx t.1 maxAttempts 0 k with
      | (some out, _) => out
      | (none, k2) => runTiers ctx effort rest k2

/-- `generateBillFromMap` of `part_001`: filter out near-zero stock,
sort ascending by single-unit cost, compute the effort multiplier from
the consecutive-failure count, and run the tier loop.  (The
`await waitFrame()` pacing calls have no effect on the result and are
not modelled.) -/
def generateBillFromMap (r : ℕ → ℚ) (k : ℕ) (stock : List Item)
    (tMin tMax dayRem : ℚ) (date : String) (margin : ℚ) (mode : Mode)
    (currentFailures : ℕ) : GenOut :=
  let availableItems := List.insertionSort
    (fun a b => a.singleUnitCost ≤ b.singleUnitCost)
    (stock.filter (fun it => mkRat 1 1000 < it.remainingQty))
  if availableItems.length = 0 then ⟨failBill, stock, k⟩
  else
    let expensiveFirst := List.insertionSort
      (fun a b => b.singleUnitCost ≤ a.singleUnitCost) availableItems
    let effort : ℚ :=
      if 2000 < currentFailures then mkRat 1 50
      else if 500 < currentFailures then mkRat 1 10
      else if 50 < currentFailures then mkRat 1 2
      else 1
    runTiers ⟨r, stock, availableItems, expensiveFirst, tMin, tMax, dayRem, date, margin, mode⟩
      effort baseAttempts k

end P1

end BillGen

namespace BillGen

theorem addPick_cases (item : Item) (qty : ℚ) (s : AttemptState) :
    addPick item qty s = s ∨
      addPick item qty s =
        { bill := s.bill ++ [⟨item, qty, getItemBillTotal item qty⟩]
          total := qadd s.total (getItemBillTotal item qty)
          picked := s.picked + 1
          used := setUsed s.used item.name (qadd (lookupUsed s.used item.name) qty)
          k := s.k } := by
  unfold addPick
  split
  · exact Or.inl rfl
  · exact Or.inr rfl

theorem isCenti_getItemBillTotal (item : Item) (qty : ℚ) :
    IsCenti (getItemBillTotal item qty) := by
  rw [getItemBillTotal, calculateItemTotal]
  exact isCenti_round2 _

end BillGen

namespace BillGen

namespace P1

/-- Shape of `addPick` applied to a state whose counter was just set:
either nothing is appended or exactly one pick of the given item is. -/
theorem addPick_shape (item : Item) (q : ℚ) (s : AttemptState) (kk : ℕ) :
    ∃ kk2, addPick item q { s with k := kk } = { s with k := kk2 } ∨
      ∃ qq, addPick item q { s with k := kk } =
        { bill := s.bill ++ [⟨item, qq, getItemBillTotal item qq⟩]
          total := qadd s.total (getItemBillTotal item qq)
          picked := s.picked + 1
          used := setUsed s.used item.name (qadd (lookupUsed s.used item.name) qq)
          k := kk2 } := by
  unfold addPick
  split
  · exact ⟨kk, Or.inl rfl⟩
  · exact ⟨kk, Or.inr ⟨q, rfl⟩⟩

/-- Every step of the `part_001` item picker either only advances the
random counter or appends exactly one pick of the current item. -/
theorem pickStep_cases (r : ℕ → ℚ) (tMax : ℚ) (minItems attempt : ℕ) (item : Item)
    (s : AttemptState) :
    ∃ kk, pickStep r tMax minItems attempt item s = { s with k := kk } ∨
      ∃ q, pickStep r tMax minItems attempt item s =
        { bill := s.bill ++ [⟨item, q, getItemBillTotal item q⟩]
          total := qadd s.total (getItemBillTotal item q)
          picked := s.picked + 1
          used := setUsed s.used item.name (qadd (lookupUsed s.used item.name) q)
          k := kk } := by
  unfold pickStep
  dsimp only
  split_ifs
  all_goals first
    | exact ⟨s.k, Or.inl rfl⟩
    | exact addPick_shape item _ s _

end P1

end BillGen

namespace BillGen

theorem cons_get_set_perm : ∀ (xs : List Item) (m : ℕ) (h : m < xs.length) (x : Item),
    List.Perm (x :: xs) (xs.get ⟨m, h⟩ :: xs.set m x)
  | y :: ys, 0, _, x => by
    simpa using List.Perm.swap y x ys
  | y :: ys, m + 1, h, x => by
    simp only [List.get_cons_succ, List.set_cons_succ]
    refine ((List.Perm.swap y x ys).trans ?_)
    exact (List.Perm.cons y (cons_get_set_perm ys m (by simpa using h) x)).trans
      (List.Perm.swap _ _ _)

theorem set_set_perm : ∀ (l : List Item) (i j : ℕ) (hi : i < l.length) (hj : j < l.length),
    List.Perm ((l.set i (l.get ⟨j, hj⟩)).set j (l.get ⟨i, hi⟩)) l
  | x :: xs, 0, 0, _, _ => by simp
  | x :: xs, 0, j + 1, hi, hj => by
    simp only [List.get_cons_succ, List.get_cons_zero, List.set_cons_zero, List.set_cons_succ]
    exact (cons_get_set_perm xs j (by simpa using hj) x).symm
  | x :: xs, i + 1, 0, hi, hj => by
    simp only [List.get_cons_succ, List.get_cons_zero, List.set_cons_zero, List.set_cons_succ]
    exact (cons_get_set_perm xs i (by simpa using hi) x).symm
  | x :: xs, i + 1, j + 1, hi, hj => by
    simp only [List.get_cons_succ, List.set_cons_succ]
    exact List.Perm.cons x
      (set_set_perm xs i j (by simpa using hi) (by simpa using hj))

theorem listSwap_perm (l : List Item) (i j : ℕ) : List.Perm (listSwap l i j) l := by
  unfold listSwap
  split
  · split
    · exact set_set_perm l i j (by assumption) (by assumption)
    · exact List.Perm.refl l
  · exact List.Perm.refl l

theorem fyAux_perm (r : ℕ → ℚ) : ∀ (i k : ℕ) (l : List Item),
    List.Perm (fyAux r k l i).1 l
  | 0, _, l => List.Perm.refl l
  | i + 1, k, l => by
    rw [fyAux]
    exact (fyAux_perm r i (k + 1) _).trans (listSwap_perm l (i + 1) _)

theorem shuffleList_perm (r : ℕ → ℚ) (k : ℕ) (l : List Item) :
    List.Perm (shuffleList r k l).1 l :=
  fyAux_perm r (l.length - 1) k l

end BillGen

namespace BillGen

namespace P1

/-- The picker preserves `pickedCount = currentBill.length` and keeps the
accumulated total a whole number of hundredths (each appended line cost
is a `toFixed(2)` result). -/
theorem pickItems_inv (r : ℕ → ℚ) (tMin tMax : ℚ) (minItems attempt : ℕ) :
    ∀ (pool : List Item) (s : AttemptState),
      s.picked = s.bill.length → IsCenti s.total →
      (pickItems r tMin tMax minItems attempt pool s).picked =
          (pickItems r tMin tMax minItems attempt pool s).bill.length ∧
        IsCenti (pickItems r tMin tMax minItems attempt pool s).total
  | [], s, h1, h2 => ⟨h1, h2⟩
  | item :: rest, s, h1, h2 => by
    have step : ∀ s0 : AttemptState, s0.picked = s0.bill.length → IsCenti s0.total →
        (pickItems r tMin tMax minItems attempt rest
            (pickStep r tMax minItems attempt item s0)).picked =
          (pickItems r tMin tMax minItems attempt rest
            (pickStep r tMax minItems attempt item s0)).bill.length ∧
        IsCenti (pickItems r tMin tMax minItems attempt rest
            (pickStep r tMax minItems attempt item s0)).total := by
      intro s0 g1 g2
      obtain ⟨kk, hc | ⟨q, hc⟩⟩ := pickStep_cases r tMax minItems attempt item s0
      · rw [hc]
        exact pickItems_inv r tMin tMax minItems attempt rest { s0 with k := kk } g1 g2
      · rw [hc]
        refine pickItems_inv r tMin tMax minItems attempt rest _ ?_ ?_
        · simp [g1]
        · show IsCenti (qadd s0.total (getItemBillTotal item q))
          rw [qadd_eq]
          exact isCenti_add g2 (isCenti_getItemBillTotal item q)
    rw [pickItems]
    split
    · split
      · exact ⟨h1, h2⟩
      · split
        · exact ⟨h1, h2⟩
        · exact step { s with k := s.k + 1 } h1 h2
    · exact step s h1 h2

/-- The picker never picks the same item name twice when the selection
pool has pairwise distinct names. -/
theorem pickItems_names (r : ℕ → ℚ) (tMin tMax : ℚ) (minItems attempt : ℕ) :
    ∀ (pool : List Item) (s : AttemptState),
      (pool.map (fun it => it.name)).Nodup →
      (s.bill.map (fun p => p.item.name)).Nodup →
      (∀ p ∈ s.bill, p.item.name ∉ pool.map (fun it => it.name)) →
      ((pickItems r tMin tMax minItems attempt pool s).bill.map
        (fun p => p.item.name)).Nodup
  | [], _, _, hbill, _ => hbill
  | item :: rest, s, hpool, hbill, hdisj => by
    have hItemNotRest : item.name ∉ rest.map (fun it => it.name) :=
      (List.nodup_cons.mp hpool).1
    have hRestNodup : (rest.map (fun it => it.name)).Nodup :=
      (List.nodup_cons.mp hpool).2
    have step : ∀ s0 : AttemptState, s0.bill = s.bill →
        ((pickItems r tMin tMax minItems attempt rest
          (pickStep r tMax minItems attempt item s0)).bill.map
            (fun p => p.item.name)).Nodup := by
      intro s0 hb
      obtain ⟨kk, hc | ⟨q, hc⟩⟩ := pickStep_cases r tMax minItems attempt item s0
      · rw [hc]
        refine pickItems_names r tMin tMax minItems attempt rest _ hRestNodup ?_ ?_
        · show (s0.bill.map (fun p => p.item.name)).Nodup
          rw [hb]; exact hbill
        · show ∀ p ∈ s0.bill, p.item.name ∉ rest.map (fun it => it.name)
          rw [hb]
          intro p hp
          have := hdisj p hp
          simp only [List.map_cons, List.mem_cons] at this
          exact fun hmem => this (Or.inr hmem)
      · rw [hc]
        refine pickItems_names r tMin tMax minItems attempt rest _ hRestNodup ?_ ?_
        · show ((s0.bill ++ [Pick.mk item q (getItemBillTotal item q)]).map
            (fun p => p.item.name)).Nodup
          rw [hb]
          rw [List.map_append, List.nodup_append]
          refine ⟨hbill, by simp, ?_⟩
          intro a ha
          simp only [List.map_cons, List.map_nil, List.mem_singleton]
          intro hEq
          obtain ⟨p, hp, hpn⟩ := List.mem_map.mp ha
          have := hdisj p hp
          simp only [List.map_cons, List.mem_cons] at this
          exact this (Or.inl (hpn.trans hEq))
        · show ∀ p ∈ s0.bill ++ [Pick.mk item q (getItemBillTotal item q)],
            p.item.name ∉ rest.map (fun it => it.name)
          rw [hb]
          intro p hp
          rcases List.mem_append.mp hp with hp | hp
          · have := hdisj p hp
            simp only [List.map_cons, List.mem_cons] at this
            exact fun hmem => this (Or.inr hmem)
          · have : p = Pick.mk item q (getItemBillTotal item q) := by simpa using hp
            rw [this]
            exact hItemNotRest
    rw [pickItems]
    split
    · split
      · exact hbill
      · split
        · exact hbill
        · exact step { s with k := s.k + 1 } rfl
    · exact step s rfl

end P1

end BillGen

namespace BillGen

namespace P1

/-- The selection pools a `part_001` attempt can use: the deterministic
expensive-first pool or some Fisher-Yates shuffle of the available
items. -/
def PoolOk (ctx : Ctx) (pool : List Item) : Prop :=
  pool = ctx.expensiveFirst ∨ ∃ k0, pool = (shuffleList ctx.r k0 ctx.availableItems).1

theorem attemptOutcome_some {ctx : Ctx} {minItems attempt : ℕ} {pool : List Item} {k : ℕ}
    {out : GenOut} {k2 : ℕ}
    (h : attemptOutcome ctx minItems attempt pool k = (some out, k2)) :
    ∃ s : AttemptState,
      s = pickItems ctx.r ctx.tMin ctx.tMax minItems attempt pool ⟨[], 0, 0, [], k⟩ ∧
      validate ctx.mode ctx.tMin ctx.tMax ctx.margin minItems s.total s.picked = true ∧
      safeLanding ctx.dayRem s.total ctx.margin = true ∧
      out.bill = formatResult s.bill s.total ctx.tMax ctx.date ∧
      out.stock = commitBill ctx.stock s.bill := by
  unfold attemptOutcome at h
  dsimp only at h
  split at h
  · rename_i hcond
    have hfst := congrArg Prod.fst h
    simp only at hfst
    have hout := Option.some.inj hfst
    refine ⟨_, rfl, hcond.1, hcond.2, ?_, ?_⟩
    · exact (congrArg GenOut.bill hout).symm
    · exact (congrArg GenOut.stock hout).symm
  · simp at h

theorem attemptOutcome_some_success {ctx : Ctx} {minItems attempt : ℕ} {pool : List Item}
    {k : ℕ} {out : GenOut} {k2 : ℕ}
    (h : attemptOutcome ctx minItems attempt pool k = (some out, k2)) :
    out.bill.success = true := by
  obtain ⟨s, _, _, _, hbill, _⟩ := attemptOutcome_some h
  rw [hbill]
  rfl

theorem runAttempts_some {ctx : Ctx} {minItems : ℕ} :
    ∀ {n attempt k : ℕ} {out : GenOut} {kres : ℕ},
      runAttempts ctx minItems n attempt k = (some out, kres) →
      ∃ a pool k1 kk, PoolOk ctx pool ∧
        attemptOutcome ctx minItems a pool k1 = (some out, kk)
  | 0, _, _, _, _, h => by simp [runAttempts] at h
  | n + 1, attempt, k, out, kres, h => by
    rw [runAttempts] at h
    rcases ha : attemptOutcome ctx minItems attempt
        (if attempt = 0 then (ctx.expensiveFirst, k)
          else shuffleList ctx.r k ctx.availableItems).1
        (if attempt = 0 then (ctx.expensiveFirst, k)
          else shuffleList ctx.r k ctx.availableItems).2 with ⟨o, k2⟩
    rw [ha] at h
    cases o with
    | some o =>
      have hout : o = out := by
        have := congrArg Prod.fst h
        simpa using this
      subst hout
      refine ⟨attempt, _, _, _, ?_, ha⟩
      by_cases h0 : attempt = 0
      · subst h0
        simp only [if_pos rfl]
        exact Or.inl rfl
      · simp only [if_neg h0]
        exact Or.inr ⟨k, rfl⟩
    | none =>
      exact runAttempts_some h

theorem runAttempts_none_stock {ctx : Ctx} {minItems : ℕ} {n attempt k : ℕ}
    {out : GenOut} {kres : ℕ}
    (h : runAttempts ctx minItems n attempt k = (some out, kres)) :
    out.bill.success = true := by
  obtain ⟨a, pool, k1, kk, _, ha⟩ := runAttempts_some h
  exact attemptOutcome_some_success ha

theorem runTiers_success {ctx : Ctx} {effort : ℚ} :
    ∀ {tiers : List (ℕ × ℕ)} {k : ℕ},
      (runTiers ctx effort tiers k).bill.success = true →
      ∃ t ∈ tiers, ∃ a pool k1 kk, PoolOk ctx pool ∧
        attemptOutcome ctx t.1 a pool k1 = (some (runTiers ctx effort tiers k), kk)
  | [], k, h => by simp [runTiers, failBill] at h
  | t :: rest, k, h => by
    rw [runTiers] at h ⊢
    dsimp only at h ⊢
    split at h
    · obtain ⟨t', ht', rest'⟩ := runTiers_success h
      rename_i hlen
      rw [if_pos hlen]
      exact ⟨t', List.mem_cons_of_mem t ht', rest'⟩
    · rename_i hlen
      rw [if_neg hlen]
      rcases hr : runAttempts ctx t.1
          (max 1 (qfloor (qmul ((t.2 : ℕ) : ℚ) effort)).toNat) 0 k with ⟨o, k2⟩
      rw [hr] at h
      cases o with
      | some o =>
        dsimp only at h ⊢
        obtain ⟨a, pool, k1, kk, hp, ha⟩ := runAttempts_some hr
        exact ⟨t, List.mem_cons_self t rest, a, pool, k1, kk, hp, ha⟩
      | none =>
        dsimp only at h ⊢
        obtain ⟨t', ht', rest'⟩ := runTiers_success h
        exact ⟨t', List.mem_cons_of_mem t ht', rest'⟩

theorem runTiers_fail {ctx : Ctx} {effort : ℚ} :
    ∀ {tiers : List (ℕ × ℕ)} {k : ℕ},
      (runTiers ctx effort tiers k).bill.success = false →
      (runTiers ctx effort tiers k).stock = ctx.stock
  | [], k, _ => by simp [runTiers]
  | t :: rest, k, h => by
    rw [runTiers] at h ⊢
    dsimp only at h ⊢
    split at h
    · rename_i hlen
      rw [if_pos hlen]
      exact runTiers_fail h
    · rename_i hlen
      rw [if_neg hlen]
      rcases hr : runAttempts ctx t.1
          (max 1 (qfloor (qmul ((t.2 : ℕ) : ℚ) effort)).toNat) 0 k with ⟨o, k2⟩
      rw [hr] at h
      cases o with
      | some o =>
        have hsucc := runAttempts_none_stock hr
        dsimp only at h
        rw [hsucc] at h
        cases h
      | none =>
        dsimp only at h ⊢
        exact runTiers_fail h

end P1

end BillGen

namespace BillGen

namespace P1

/-- Characterisation of every successful `part_001` composer call: the
returned bill and post-call ledger come from a scratch attempt state
that passed the tier validation and the safe-landing check on one of the
tiers of `baseAttempts`. -/
theorem generate_success_spec (r : ℕ → ℚ) (k : ℕ) (stock : List Item)
    (tMin tMax dayRem : ℚ) (date : String) (margin : ℚ) (mode : Mode) (fails : ℕ)
    (h : (generateBillFromMap r k stock tMin tMax dayRem date margin mode fails).bill.success
        = true) :
    ∃ t ∈ baseAttempts, ∃ s : AttemptState,
      (generateBillFromMap r k stock tMin tMax dayRem date margin mode fails).bill
          = formatResult s.bill s.total tMax date ∧
      (generateBillFromMap r k stock tMin tMax dayRem date margin mode fails).stock
          = commitBill stock s.bill ∧
      validate mode tMin tMax margin t.1 s.total s.picked = true ∧
      safeLanding dayRem s.total margin = true ∧
      s.picked = s.bill.length ∧ IsCenti s.total ∧
      ((stock.map (fun it => it.name)).Nodup →
        (s.bill.map (fun p => p.item.name)).Nodup) := by
  unfold generateBillFromMap at h ⊢
  dsimp only at h ⊢
  split at h
  · simp [failBill] at h
  · rename_i hlen
    split
    · rename_i hlen2
      exact absurd hlen2 hlen
    obtain ⟨t, ht, a, pool, k1, kk, hpool, ha⟩ := runTiers_success h
    obtain ⟨s, hs, hval, hsafe, hbill, hstock⟩ := attemptOutcome_some ha
    refine ⟨t, ht, s, hbill, hstock, hval, hsafe, ?_, ?_, ?_⟩
    · subst hs
      exact (pickItems_inv _ _ _ _ _ pool _ rfl ⟨0, by norm_num⟩).1
    · subst hs
      exact (pickItems_inv _ _ _ _ _ pool _ rfl ⟨0, by norm_num⟩).2
    · intro hnd
      have hAvail : ((List.insertionSort
          (fun a b => a.singleUnitCost ≤ b.singleUnitCost)
          (stock.filter (fun it => mkRat 1 1000 < it.remainingQty))).map
            (fun it => it.name)).Nodup := by
        have hperm := List.perm_insertionSort
          (fun a b : Item => a.singleUnitCost ≤ b.singleUnitCost)
          (stock.filter (fun it => mkRat 1 1000 < it.remainingQty))
        have hsub : ((stock.filter (fun it => mkRat 1 1000 < it.remainingQty)).map
            (fun it => it.name)).Nodup :=
          ((List.filter_sublist stock).map (fun it => it.name)).nodup hnd
        exact ((hperm.map (fun it => it.name)).nodup_iff).mpr hsub
      have hPoolNodup : (pool.map (fun it => it.name)).Nodup := by
        rcases hpool with hp | ⟨k0, hp⟩
        · subst hp
          have hperm := List.perm_insertionSort
            (fun a b : Item => b.singleUnitCost ≤ a.singleUnitCost)
            (List.insertionSort (fun a b : Item => a.singleUnitCost ≤ b.singleUnitCost)
              (stock.filter (fun it => mkRat 1 1000 < it.remainingQty)))
          exact ((hperm.map (fun it => it.name)).nodup_iff).mpr hAvail
        · subst hp
          have hperm := shuffleList_perm r k0 (List.insertionSort
            (fun a b : Item => a.singleUnitCost ≤ b.singleUnitCost)
            (stock.filter (fun it => mkRat 1 1000 < it.remainingQty)))
          exact ((hperm.map (fun it => it.name)).nodup_iff).mpr hAvail
      subst hs
      exact pickItems_names _ _ _ _ _ pool _ hPoolNodup (by simp) (by simp)

/-- A failed `part_001` composer call leaves the ledger untouched. -/
theorem generate_fail_spec (r : ℕ → ℚ) (k : ℕ) (stock : List Item)
    (tMin tMax dayRem : ℚ) (date : String) (margin : ℚ) (mode : Mode) (fails : ℕ)
    (h : (generateBillFromMap r k stock tMin tMax dayRem date margin mode fails).bill.success
        = false) :
    (generateBillFromMap r k stock tMin tMax dayRem date margin mode fails).stock = stock := by
  unfold generateBillFromMap at h ⊢
  dsimp only at h ⊢
  split at h
  · rename_i hlen
    split
    · rfl
    · rename_i hlen2
      exact absurd hlen hlen2
  · rename_i hlen
    split
    · rename_i hlen2
      exact absurd hlen2 hlen
    · exact runTiers_fail h

end P1

end BillGen

namespace BillGen

theorem findItem_commitOne (stock : List Item) (p : Pick) (n : String) :
    findItem (commitOne stock p) n = (findItem stock n).map (fun it =>
      if it.name = p.item.name then
        { it with remainingQty := round3 (qsub it.remainingQty p.qty) }
      else it) := by
  induction stock with
  | nil => rfl
  | cons x xs ih =>
    unfold commitOne at ih ⊢
    unfold findItem at ih ⊢
    simp only [List.map_cons]
    by_cases hx : x.name = n
    · rw [List.find?_cons_of_pos _ (by
          simp only [apply_ite Item.name, ite_self, decide_eq_true_eq]
          exact hx),
        List.find?_cons_of_pos _ (by simpa using hx)]
      simp
    · rw [List.find?_cons_of_neg _ (by
          simp only [apply_ite Item.name, ite_self, decide_eq_true_eq]
          exact hx),
        List.find?_cons_of_neg _ (by simpa using hx)]
      exact ih

theorem findItem_commitOne_ne (stock : List Item) (p : Pick) (n : String)
    (hne : p.item.name ≠ n) :
    findItem (commitOne stock p) n = findItem stock n := by
  rw [findItem_commitOne]
  cases hfind : findItem stock n with
  | none => rfl
  | some it =>
    have hit : it.name = n := by
      have := List.find?_some hfind
      simpa using this
    simp only [Option.map_some']
    rw [if_neg]
    intro hcontra
    exact hne (by rw [← hcontra, hit])

theorem findItem_commitBill_ne (bill : List Pick) :
    ∀ (stock : List Item) (n : String), (∀ p ∈ bill, p.item.name ≠ n) →
      findItem (commitBill stock bill) n = findItem stock n := by
  induction bill with
  | nil => intro stock n _; rfl
  | cons q rest ih =>
    intro stock n h
    show findItem (commitBill (commitOne stock q) rest) n = _
    rw [ih (commitOne stock q) n (fun p hp => h p (List.mem_cons_of_mem q hp))]
    exact findItem_commitOne_ne stock q n (h q (List.mem_cons_self q rest))

theorem findItem_commitBill_mem (bill : List Pick) :
    ∀ (stock : List Item) (p : Pick), p ∈ bill →
      (bill.map (fun q => q.item.name)).Nodup →
      findItem (commitBill stock bill) p.item.name =
        (findItem stock p.item.name).map (fun it =>
          { it with remainingQty := round3 (qsub it.remainingQty p.qty) }) := by
  induction bill with
  | nil => intro _ _ hmem _; cases hmem
  | cons q rest ih =>
    intro stock p hmem hnd
    have hq_notin : q.item.name ∉ rest.map (fun p => p.item.name) :=
      (List.nodup_cons.mp hnd).1
    rcases List.mem_cons.mp hmem with hpq | hmem'
    · subst hpq
      show findItem (commitBill (commitOne stock p) rest) p.item.name = _
      rw [findItem_commitBill_ne rest (commitOne stock p) p.item.name ?side]
      case side =>
        intro q' hq' hEq
        exact hq_notin (hEq ▸ List.mem_map_of_mem (fun z => z.item.name) hq')
      rw [findItem_commitOne]
      cases hfind : findItem stock p.item.name with
      | none => rfl
      | some it =>
        have hit : it.name = p.item.name := by
          have := List.find?_some hfind
          simpa using this
        simp only [Option.map_some']
        rw [if_pos hit]
    · have hne : q.item.name ≠ p.item.name := by
        intro hEq
        exact hq_notin (hEq ▸ List.mem_map_of_mem (fun z => z.item.name) hmem')
      show findItem (commitBill (commitOne stock q) rest) p.item.name = _
      rw [ih (commitOne stock q) p hmem' (List.nodup_cons.mp hnd).2]
      rw [findItem_commitOne_ne stock q p.item.name hne]

end BillGen

namespace BillGen

/-- C1: every successful bill of the `part_001` composer satisfies the
acceptance rule of the tier it succeeded on: in RANGE mode the total
lies in `[targetMin, targetMax]`, in EXACT mode `|targetMax - total|`
is at most the margin, and the line count is at least the tier's
minimum item count. -/
theorem claim1_acceptance (r : ℕ → ℚ) (k : ℕ) (stock : List Item) (tMin tMax dayRem : ℚ)
    (date : String) (margin : ℚ) (mode : Mode) (fails : ℕ)
    (h : (P1.generateBillFromMap r k stock tMin tMax dayRem date margin mode
        fails).bill.success = true) :
    ∃ t ∈ baseAttempts,
      t.1 ≤ (P1.generateBillFromMap r k stock tMin tMax dayRem date margin mode
          fails).bill.items.length ∧
      (mode = Mode.RANGE →
        tMin ≤ (P1.generateBillFromMap r k stock tMin tMax dayRem date margin mode
            fails).bill.total ∧
          (P1.generateBillFromMap r k stock tMin tMax dayRem date margin mode
            fails).bill.total ≤ tMax) ∧
      (mode = Mode.EXACT →
        |tMax - (P1.generateBillFromMap r k stock tMin tMax dayRem date margin mode
            fails).bill.total| ≤ margin) := by
  obtain ⟨t, ht, s, hbill, hstock, hval, hsafe, hlen, hcenti, _⟩ :=
    P1.generate_success_spec r k stock tMin tMax dayRem date margin mode fails h
  have htot : (P1.generateBillFromMap r k stock tMin tMax dayRem date margin mode
      fails).bill.total = s.total := by
    rw [hbill]
    exact round2_of_isCenti hcenti
  have hitems : (P1.generateBillFromMap r k stock tMin tMax dayRem date margin mode
      fails).bill.items.length = s.bill.length := by
    rw [hbill]
    simp [formatResult]
  refine ⟨t, ht, ?_, ?_, ?_⟩
  · rw [hitems, ← hlen]
    cases mode with
    | RANGE =>
      simp only [validate, decide_eq_true_eq] at hval
      exact hval.2.2
    | EXACT =>
      simp only [validate, decide_eq_true_eq] at hval
      exact hval.2
  · intro hm
    subst hm
    simp only [validate, decide_eq_true_eq] at hval
    rw [htot]
    exact ⟨hval.1, hval.2.1⟩
  · intro hm
    subst hm
    simp only [validate, decide_eq_true_eq, qsub_eq] at hval
    rw [htot]
    exact hval.1

/-- C2: a failed `part_001` composer call never mutates the stock map:
the post-call ledger is exactly the input ledger. -/
theorem claim2_failure_clean (r : ℕ → ℚ) (k : ℕ) (stock : List Item)
    (tMin tMax dayRem : ℚ) (date : String) (margin : ℚ) (mode : Mode) (fails : ℕ)
    (h : (P1.generateBillFromMap r k stock tMin tMax dayRem date margin mode
        fails).bill.success = false) :
    (P1.generateBillFromMap r k stock tMin tMax dayRem date margin mode fails).stock
      = stock :=
  P1.generate_fail_spec r k stock tMin tMax dayRem date margin mode fails h

/-- C4: every successful bill of the `part_001` composer passes the
safe-landing rule: subtracting the bill total from the day budget
leaves either at most the margin or strictly more than 50. -/
theorem claim4_safe_landing (r : ℕ → ℚ) (k : ℕ) (stock : List Item)
    (tMin tMax dayRem : ℚ) (date : String) (margin : ℚ) (mode : Mode) (fails : ℕ)
    (h : (P1.generateBillFromMap r k stock tMin tMax dayRem date margin mode
        fails).bill.success = true) :
    dayRem - (P1.generateBillFromMap r k stock tMin tMax dayRem date margin mode
        fails).bill.total ≤ margin ∨
      50 < dayRem - (P1.generateBillFromMap r k stock tMin tMax dayRem date margin mode
        fails).bill.total := by
  obtain ⟨t, ht, s, hbill, hstock, hval, hsafe, hlen, hcenti, _⟩ :=
    P1.generate_success_spec r k stock tMin tMax dayRem date margin mode fails h
  have htot : (P1.generateBillFromMap r k stock tMin tMax dayRem date margin mode
      fails).bill.total = s.total := by
    rw [hbill]
    exact round2_of_isCenti hcenti
  simp only [safeLanding, decide_eq_true_eq, qsub_eq] at hsafe
  rw [htot]
  exact hsafe

/-- C7: conservation for the `part_001` composer: for every line of a
successful bill, the committed ledger entry of that item equals the
previous remaining quantity minus the line quantity, up to the
`toFixed(3)` rounding tolerance of at most 0.001. -/
theorem claim7_conservation (r : ℕ → ℚ) (k : ℕ) (stock : List Item)
    (tMin tMax dayRem : ℚ) (date : String) (margin : ℚ) (mode : Mode) (fails : ℕ)
    (hnd : (stock.map (fun it => it.name)).Nodup)
    (h : (P1.generateBillFromMap r k stock tMin tMax dayRem date margin mode
        fails).bill.success = true) :
    ∀ line ∈ (P1.generateBillFromMap r k stock tMin tMax dayRem date margin mode
        fails).bill.items,
      ∀ pre post : Item, findItem stock line.name = some pre →
        findItem (P1.generateBillFromMap r k stock tMin tMax dayRem date margin mode
          fails).stock line.name = some post →
        |post.remainingQty - (pre.remainingQty - line.qty)| ≤ 1 / 1000 := by
  obtain ⟨t, ht, s, hbill, hstock, hval, hsafe, hlen, hcenti, hnames⟩ :=
    P1.generate_success_spec r k stock tMin tMax dayRem date margin mode fails h
  intro line hline pre post hpre hpost
  rw [hbill] at hline
  simp only [formatResult, List.mem_map] at hline
  obtain ⟨p, hp, hpl⟩ := hline
  have hname : line.name = p.item.name := by rw [← hpl]
  have hqty : line.qty = p.qty := by rw [← hpl]
  rw [hstock, hname] at hpost
  rw [findItem_commitBill_mem s.bill stock p hp (hnames hnd)] at hpost
  rw [hname] at hpre
  rw [hpre] at hpost
  simp only [Option.map_some'] at hpost
  have hpost2 := Option.some.inj hpost
  have : post.remainingQty = round3 (qsub pre.remainingQty p.qty) := by
    rw [← hpost2]
  rw [this, hqty, qsub_eq]
  exact abs_round3_sub (pre.remainingQty - p.qty)

/-- C5: the tax calculator computes
`round2(unitPrice*qty*(1 + gst/100) + mrp*qty*(cess/100))`, and in
particular `lineTotal(100, 2, 18, 0, 0) = 236.00` and
`lineTotal(50, 1, 5, 2, 200) = 56.50`. -/
theorem claim5_tax_formula :
    (∀ price qty gstPercent cessPercent mrp : ℚ,
      calculateItemTotal price qty gstPercent cessPercent mrp =
        round2 (price * qty * (1 + gstPercent / 100) + mrp * qty * (cessPercent / 100))) ∧
    calculateItemTotal 100 2 18 0 0 = 236 ∧
    calculateItemTotal 50 1 5 2 200 = mkRat 5650 100 := by
  refine ⟨?_, by decide, by decide⟩
  intro price qty gstPercent cessPercent mrp
  rw [calculateItemTotal_eq]
  congr 1
  ring

/-- C6: the Fractional-Sale Policy of `part_000`/`part_001` permits a
non-integer quantity exactly when the MRP exceeds 10000, or the
remaining quantity is already non-integral, or one whole unit costs
more than the budget room left. -/
theorem claim6_float_policy (item : Item) (roomLeft : ℚ) :
    canSellInFloat item roomLeft = true ↔ floatPolicySpec item roomLeft := by
  unfold canSellInFloat floatPolicySpec
  constructor
  · intro h
    split_ifs at h with h1 h2 h3
    · exact Or.inl h1
    · refine Or.inr (Or.inl ?_)
      rintro ⟨n, hn⟩
      exact h2 (by rw [hn]; exact Rat.den_intCast n)
    · exact Or.inr (Or.inr h3)
  · intro h
    split_ifs with h1 h2 h3
    · rfl
    · rfl
    · rfl
    · rcases h with h | h | h
      · exact absurd h h1
      · exact absurd ⟨item.remainingQty.num,
          ((Rat.den_eq_one_iff item.remainingQty).mp (not_not.mp h2)).symm⟩ h
      · exact absurd h h3

/-- C8 counterexample: calling the tax calculator with `gstPercent`
missing does not behave like `gstPercent = 0`: the result is `NaN`
(`none`), not `236.00`. -/
theorem claim8_counterexample :
    calculateItemTotalOpt 100 2 none (some 0) (some 0) ≠
      some (calculateItemTotal 100 2 0 0 0) := by
  decide

/-- C8 (amended): the tax calculator raises no exception; a missing
`cessPercent` or `mrp` is treated as zero, but a missing `gstPercent`
poisons the result to `NaN` instead of behaving like zero. -/
theorem claim8_amended (price qty g c m : ℚ) :
    calculateItemTotalOpt price qty (some g) none none =
        some (calculateItemTotal price qty g 0 0) ∧
      calculateItemTotalOpt price qty (some g) (some c) none =
        some (calculateItemTotal price qty g c 0) ∧
      calculateItemTotalOpt price qty (some g) none (some m) =
        some (calculateItemTotal price qty g 0 m) ∧
      calculateItemTotalOpt price qty none (some c) (some m) = none :=
  ⟨rfl, rfl, rfl, rfl⟩

end BillGen

namespace BillGen

/-- Random oracle constantly returning 0 (a legal `Math.random` value). -/
def rZero : ℕ → ℚ := fun _ => 0

/-- Random oracle constantly returning 0.5 (a legal `Math.random` value). -/
def rHalf : ℕ → ℚ := fun _ => mkRat 1 2

/-- A plain integer-stock item: price 10, no taxes, 5 units, unit cost 10. -/
def wItem : Item :=
  { name := "A", price := 10, gst := 0, cess := 0, mrp := 0,
    remainingQty := 5, singleUnitCost := 10, originalIsFloat := false }

/-- The single line of the bill composed from `wItem` by `rZero`. -/
def wLine : BillLine :=
  { name := "A", qty := 1, unitPrice := 10, gstPercent := 0, cessPercent := 0,
    mrp := 0, cessTaxAmount := 0, itemTotal := 10, date := "2024-01-05" }

/-- `wItem` after committing one unit. -/
def wPost : Item :=
  { name := "A", price := 10, gst := 0, cess := 0, mrp := 0,
    remainingQty := 4, singleUnitCost := 10, originalIsFloat := false }

/-- An expensive integer item used by the negative-stock run: price 100,
10 units in stock, unit cost 100. -/
def bugItemA : Item :=
  { name := "A", price := 100, gst := 0, cess := 0, mrp := 0,
    remainingQty := 10, singleUnitCost := 100, originalIsFloat := false }

/-- A cheap fractional-stock item used by the negative-stock run: price
1, 0.0394 units in stock (a broken unit, hence float-eligible), unit
cost 1. -/
def bugItemB : Item :=
  { name := "B", price := 1, gst := 0, cess := 0, mrp := 0,
    remainingQty := mkRat 394 10000, singleUnitCost := 1, originalIsFloat := true }

/-- C3: the code violates the non-negativity invariant.  With stock
`{A: 10 units at 100, B: 0.0394 units at 1}`, RANGE targets
`[200.03, 201]`, day budget 200.04 and every `Math.random()` call
returning 0.5, the composer accepts a bill containing 0.04 units of B
(the decimal pick `round2(absMax * 0.9)` rounds 0.03546 up to 0.04,
above the 0.0394 remaining, and the variety cap no longer applies once
`pickedCount >= minItems`), and the commit leaves B's remaining
quantity at -0.001. -/
theorem claim3_negative_stock :
    (P1.generateBillFromMap rHalf 0 [bugItemA, bugItemB] (mkRat 20003 100) 201
        (mkRat 20004 100) "2024-01-05" 5 Mode.RANGE 0).bill.success = true ∧
      (findItem (P1.generateBillFromMap rHalf 0 [bugItemA, bugItemB] (mkRat 20003 100) 201
          (mkRat 20004 100) "2024-01-05" 5 Mode.RANGE 0).stock "B").map Item.remainingQty
        = some (mkRat (-1) 1000) := by
  constructor
  · decide
  · decide

/-- C1 witness: a concrete successful RANGE call (one item, targets
[10, 20]) satisfying the acceptance property. -/
theorem claim1_acceptance_witness :
    (P1.generateBillFromMap rZero 0 [wItem] 10 20 10 "2024-01-05" 5 Mode.RANGE
        0).bill.success = true ∧
    ∃ t ∈ baseAttempts,
      t.1 ≤ (P1.generateBillFromMap rZero 0 [wItem] 10 20 10 "2024-01-05" 5 Mode.RANGE
          0).bill.items.length ∧
      (Mode.RANGE = Mode.RANGE →
        10 ≤ (P1.generateBillFromMap rZero 0 [wItem] 10 20 10 "2024-01-05" 5 Mode.RANGE
            0).bill.total ∧
          (P1.generateBillFromMap rZero 0 [wItem] 10 20 10 "2024-01-05" 5 Mode.RANGE
            0).bill.total ≤ 20) ∧
      (Mode.RANGE = Mode.EXACT →
        |20 - (P1.generateBillFromMap rZero 0 [wItem] 10 20 10 "2024-01-05" 5 Mode.RANGE
            0).bill.total| ≤ 5) :=
  ⟨by decide, claim1_acceptance rZero 0 [wItem] 10 20 10 "2024-01-05" 5 Mode.RANGE 0
    (by decide)⟩

/-- C2 witness: a concrete failing call (empty stock) leaves the ledger
unchanged. -/
theorem claim2_failure_clean_witness :
    (P1.generateBillFromMap rZero 0 [] 10 20 10 "2024-01-05" 5 Mode.RANGE
        0).bill.success = false ∧
      (P1.generateBillFromMap rZero 0 [] 10 20 10 "2024-01-05" 5 Mode.RANGE 0).stock
        = ([] : List Item) :=
  ⟨by decide, claim2_failure_clean rZero 0 [] 10 20 10 "2024-01-05" 5 Mode.RANGE 0
    (by decide)⟩

/-- C4 witness: the concrete successful call of `claim1_acceptance_witness`
lands safely (leftover 0 is at most the margin). -/
theorem claim4_safe_landing_witness :
    (P1.generateBillFromMap rZero 0 [wItem] 10 20 10 "2024-01-05" 5 Mode.RANGE
        0).bill.success = true ∧
    (10 - (P1.generateBillFromMap rZero 0 [wItem] 10 20 10 "2024-01-05" 5 Mode.RANGE
        0).bill.total ≤ 5 ∨
      50 < 10 - (P1.generateBillFromMap rZero 0 [wItem] 10 20 10 "2024-01-05" 5
        Mode.RANGE 0).bill.total) :=
  ⟨by decide, claim4_safe_landing rZero 0 [wItem] 10 20 10 "2024-01-05" 5 Mode.RANGE 0
    (by decide)⟩

/-- C7 witness: in the concrete successful call, the committed ledger
entry for item A differs from `pre - qty` by at most 0.001. -/
theorem claim7_conservation_witness :
    ((P1.generateBillFromMap rZero 0 [wItem] 10 20 10 "2024-01-05" 5 Mode.RANGE
        0).bill.items = [wLine] ∧
      findItem [wItem] "A" = some wItem ∧
      findItem (P1.generateBillFromMap rZero 0 [wItem] 10 20 10 "2024-01-05" 5 Mode.RANGE
        0).stock "A" = some wPost) ∧
    |wPost.remainingQty - (wItem.remainingQty - wLine.qty)| ≤ 1 / 1000 :=
  ⟨⟨by decide, by decide, by decide⟩,
    claim7_conservation rZero 0 [wItem] 10 20 10 "2024-01-05" 5 Mode.RANGE 0
      (by decide) (by decide) wLine (by decide) wItem wPost (by decide) (by decide)⟩

end BillGen

namespace BillGen

/-- Structured model of the entries pushed onto the skipped-days log
(`skippedDaysLog`): a critical 100%-skip entry aborting the run, or a
partial-skip entry with the unmet remainder. -/
inductive LogEntry where
  | criticalEntry (date : String)
  | skipEntry (date : String) (remaining : ℚ)
deriving DecidableEq, Repr

/-- Outcome of one day's `while` loop in `tryGenerateCashBills` of
`part_001`.  `fuelOut` is a modelling artefact: the JS loop has no
iteration bound, so the embedding runs it on explicit fuel. -/
inductive DayStatus where
  | met
  | criticalFail
  | skippedSome
  | fuelOut
deriving DecidableEq, Repr

/-- State returned by one day's loop: the bills generated that day, the
accumulated total, the ledger, the random-stream position, the outcome
and the remaining unmet amount. -/
structure DayRun where
  bills : List Bill
  acc : ℚ
  stock : List Item
  k : ℕ
  status : DayStatus
  remaining : ℚ
deriving Repr

/-- Per-iteration parameters of the day loop of `part_001`
(`tryGenerateCashBills`): margin 5 and RANGE with `[minBill, maxBill]`
by default, `targetMin` dropped to 10 after 20 consecutive failures,
and EXACT on the remainder with margin 50 once the remainder fits under
`maxBill`.  Returns (targetMin, targetMax, margin, mode). -/
def dayParams (minBill maxBill remaining : ℚ) (fails : ℕ) : ℚ × ℚ × ℚ × Mode :=
  let tMin := if 20 < fails then 10 else minBill
  if remaining ≤ maxBill then (remaining, remaining, 50, Mode.EXACT)
  else (tMin, if remaining < maxBill then remaining else maxBill, 5, Mode.RANGE)

/-- The `while (dateAccumulated < targetAmount)` loop of `part_001`:
call the composer on the remainder; on success push the bill, add its
total and reset the failure count; on failure increment it, and when it
exceeds 5000 stop the day - critically when nothing at all was
accumulated, as a partial skip otherwise. -/
def runDayLoop (r : ℕ → ℚ) (minBill maxBill : ℚ) (date : String) (target : ℚ) :
    ℕ → ℚ → ℕ → List Item → ℕ → List Bill → DayRun
  | 0, acc, _, stock, k, bills =>
    ⟨bills, acc, stock, k, DayStatus.fuelOut, qsub target acc⟩
  | fuel + 1, acc, fails, stock, k, bills =>
    if acc < target then
      let remaining := qsub target acc
      let p := dayParams minBill maxBill remaining fails
      let out := P1.generateBillFromMap r k stock p.1 p.2.1 remaining date p.2.2.1
        p.2.2.2 fails
      if out.bill.success = true then
        runDayLoop r minBill maxBill date target fuel (qadd acc out.bill.total) 0
          out.stock out.k (bills ++ [out.bill])
      else
        if 5000 < fails + 1 then
          if acc = 0 then ⟨bills, acc, out.stock, out.k, DayStatus.criticalFail, remaining⟩
          else ⟨bills, acc, out.stock, out.k, DayStatus.skippedSome, remaining⟩
        else
          runDayLoop r minBill maxBill date target fuel acc (fails + 1) out.stock out.k bills
    else ⟨bills, acc, stock, k, DayStatus.met, qsub target acc⟩

/-- The whole-run state of `tryGenerateCashBills` of `part_001`. -/
structure SchedState where
  stock : List Item
  bills : List Bill
  log : List LogEntry
  hasSkipped : Bool
  abortAll : Bool
  k : ℕ
deriving DecidableEq, Repr

/-- Process one scheduled day: a non-positive target is skipped
silently; otherwise the day loop runs, its bills are appended, and a
critical day sets `abortAll` (plus a critical log entry) while a
partial skip only logs. -/
def processDay (r : ℕ → ℚ) (fuel : ℕ) (minBill maxBill : ℚ) (d : String × ℚ)
    (st : SchedState) : SchedState :=
  if d.2 ≤ 0 then st
  else
    let run := runDayLoop r minBill maxBill d.1 d.2 fuel 0 0 st.stock st.k []
    match run.status with
    | DayStatus.criticalFail =>
      { stock := run.stock, bills := st.bills ++ run.bills,
        log := st.log ++ [LogEntry.criticalEntry d.1],
        hasSkipped := true, abortAll := true, k := run.k }
    | DayStatus.skippedSome =>
      { stock := run.stock, bills := st.bills ++ run.bills,
        log := st.log ++ [LogEntry.skipEntry d.1 run.remaining],
        hasSkipped := true, abortAll := st.abortAll, k := run.k }
    | _ =>
      { stock := run.stock, bills := st.bills ++ run.bills, log := st.log,
        hasSkipped := st.hasSkipped, abortAll := st.abortAll, k := run.k }

/-- The `for (const { date, targetAmount } of dateAmountTargets)` loop
of `part_001`: days are processed in order and the loop breaks as soon
as `abortAll` is set. -/
def runSchedule (r : ℕ → ℚ) (fuel : ℕ) (minBill maxBill : ℚ) :
    List (String × ℚ) → SchedState → SchedState
  | [], st => st
  | d :: rest, st =>
    if st.abortAll = true then st
    else runSchedule r fuel minBill maxBill rest (processDay r fuel minBill maxBill d st)

/-- `tryGenerateCashBills` of `part_001` (the computation on validated
numeric inputs; file export and DOM wiring are out of scope): clamp the
bill bounds, build the run state and process every scheduled day. -/
def tryGenerateCashBills (r : ℕ → ℚ) (fuel : ℕ) (minBill0 maxBill0 : ℚ)
    (stock : List Item) (days : List (String × ℚ)) : SchedState :=
  let minBill := max minBill0 10
  let maxBill := if 10000 < maxBill0 then 10000 else maxBill0
  runSchedule r fuel minBill maxBill days ⟨stock, [], [], false, false, 0⟩

theorem runSchedule_abort (r : ℕ → ℚ) (fuel : ℕ) (minBill maxBill : ℚ) :
    ∀ (l : List (String × ℚ)) (st : SchedState), st.abortAll = true →
      runSchedule r fuel minBill maxBill l st = st
  | [], _, _ => rfl
  | d :: rest, st, h => by rw [runSchedule, if_pos h]

end BillGen

namespace BillGen

/-- A composer call on an empty ledger fails immediately and consumes
no randomness. -/
theorem generate_empty (r : ℕ → ℚ) (k : ℕ) (tMin tMax dayRem : ℚ) (date : String)
    (margin : ℚ) (mode : Mode) (fails : ℕ) :
    P1.generateBillFromMap r k [] tMin tMax dayRem date margin mode fails
      = ⟨failBill, [], k⟩ := rfl

/-- With an empty ledger and a positive target, the day loop fails every
iteration without progress, so once the budgeted failures fit in the
fuel it ends critically. -/
theorem runDayLoop_empty_critical (r : ℕ → ℚ) (minBill maxBill : ℚ) (date : String)
    (target : ℚ) (hpos : 0 < target) :
    ∀ (fuel fails k : ℕ) (bills : List Bill), fails ≤ 5000 → 5001 ≤ fails + fuel →
      (runDayLoop r minBill maxBill date target fuel 0 fails [] k bills).status
        = DayStatus.criticalFail := by
  intro fuel
  induction fuel with
  | zero =>
    intro fails k bills h1 h2
    omega
  | succ n ih =>
    intro fails k bills h1 h2
    rw [runDayLoop]
    rw [if_pos hpos]
    dsimp only
    rw [generate_empty]
    have hfail : failBill.success = true ↔ False := by simp [failBill]
    rw [if_neg (by simp [failBill])]
    by_cases hceil : 5000 < fails + 1
    · rw [if_pos hceil, if_pos rfl]
    · rw [if_neg hceil]
      exact ih (fails + 1) k bills (by omega) (by omega)

/-- C9: in the strict policy of `part_001`, whenever a day's loop ends
critically (consecutive failures past the 5000 ceiling with zero
accumulated total), the schedule produces a critical log entry for that
day and abandons every subsequent day: the run over `d :: rest` equals
the run over `[d]` alone. -/
theorem claim9_critical_abort (r : ℕ → ℚ) (fuel : ℕ) (minBill maxBill : ℚ)
    (d : String × ℚ) (rest : List (String × ℚ)) (st : SchedState)
    (hab : st.abortAll = false) (hpos : 0 < d.2)
    (hcrit : (runDayLoop r minBill maxBill d.1 d.2 fuel 0 0 st.stock st.k []).status
        = DayStatus.criticalFail) :
    LogEntry.criticalEntry d.1 ∈ (runSchedule r fuel minBill maxBill (d :: rest) st).log ∧
      runSchedule r fuel minBill maxBill (d :: rest) st =
        runSchedule r fuel minBill maxBill [d] st := by
  have hd : processDay r fuel minBill maxBill d st =
      { stock := (runDayLoop r minBill maxBill d.1 d.2 fuel 0 0 st.stock st.k []).stock,
        bills := st.bills ++
          (runDayLoop r minBill maxBill d.1 d.2 fuel 0 0 st.stock st.k []).bills,
        log := st.log ++ [LogEntry.criticalEntry d.1],
        hasSkipped := true, abortAll := true,
        k := (runDayLoop r minBill maxBill d.1 d.2 fuel 0 0 st.stock st.k []).k } := by
    unfold processDay
    rw [if_neg (not_le.mpr hpos)]
    dsimp only
    rw [hcrit]
  have hstep : runSchedule r fuel minBill maxBill (d :: rest) st =
      runSchedule r fuel minBill maxBill rest (processDay r fuel minBill maxBill d st) := by
    rw [runSchedule, if_neg (by rw [hab]; exact Bool.false_ne_true)]
  have hstep1 : runSchedule r fuel minBill maxBill [d] st =
      processDay r fuel minBill maxBill d st := by
    rw [runSchedule, if_neg (by rw [hab]; exact Bool.false_ne_true)]
    rfl
  have habort : (processDay r fuel minBill maxBill d st).abortAll = true := by
    rw [hd]
  constructor
  · rw [hstep, runSchedule_abort r fuel minBill maxBill rest _ habort, hd]
    exact List.mem_append_right st.log (List.mem_singleton_self _)
  · rw [hstep, runSchedule_abort r fuel minBill maxBill rest _ habort, hstep1]

/-- C9 witness: empty stock, day target 100 with fuel 5001, a second
scheduled day; the critical entry is logged and the second day is never
processed. -/
theorem claim9_critical_abort_witness :
    LogEntry.criticalEntry "2024-01-02" ∈
      (runSchedule rZero 5001 10 100 [("2024-01-02", 100), ("2024-01-03", 50)]
        ⟨[], [], [], false, false, 0⟩).log ∧
      runSchedule rZero 5001 10 100 [("2024-01-02", 100), ("2024-01-03", 50)]
          ⟨[], [], [], false, false, 0⟩ =
        runSchedule rZero 5001 10 100 [("2024-01-02", 100)]
          ⟨[], [], [], false, false, 0⟩ :=
  claim9_critical_abort rZero 5001 10 100 ("2024-01-02", 100) [("2024-01-03", 50)]
    ⟨[], [], [], false, false, 0⟩ rfl (by norm_num)
    (runDayLoop_empty_critical rZero 10 100 "2024-01-02" 100 (by norm_num)
      5001 0 0 [] (by norm_num) (by norm_num))

end BillGen

namespace BillGen

namespace P2

/-- `canSellInFloat(item)` of `part_002` (the strict variant): a decimal
quantity is allowed only for MRP above 10000 or when the originally
loaded quantity was non-integral. -/
def canSellInFloat (item : Item) : Bool :=
  if 10000 < item.mrp then true
  else if item.originalIsFloat then true
  else false

/-- `absMax = Math.min(actualRemaining, maxQtyBudget)` with the JS
`roomLeft / 0 = Infinity` degeneration for a zero single-unit cost. -/
def absMaxOf (item : Item) (roomLeft actualRemaining : ℚ) : ℚ :=
  min actualRemaining (if item.singleUnitCost = 0 then actualRemaining
    else qdiv roomLeft item.singleUnitCost)

/-- The decimal-pick factor of `part_002`: 0.9 on the deterministic
attempts 0 and 2, otherwise `Math.random() * 0.8 + 0.2`. -/
def floatFactor (r : ℕ → ℚ) (k attempt : ℕ) : ℚ :=
  if attempt = 0 ∨ attempt = 2 then mkRat 9 10
  else qadd (qmul (r k) (mkRat 8 10)) (mkRat 2 10)

/-- The decimal pick: `parseFloat((absMax * factor).toFixed(2))`, halved
while the bill still needs more distinct items. -/
def floatQty (absMax factor : ℚ) (picked minItems : ℕ) : ℚ :=
  let qty0 := round2 (qmul absMax factor)
  if picked < minItems ∧ qdiv absMax 2 < qty0 then round2 (qdiv absMax 2) else qty0

/-- The integer pick: `Math.floor(Math.random() * intMax) + 1` with the
variety cap of 2 while more distinct items are needed. -/
def intQty (r : ℕ → ℚ) (k : ℕ) (intMax : ℤ) (picked minItems : ℕ) : ℚ :=
  let intMax2 : ℤ := if picked < minItems then min intMax 2 else intMax
  ((qfloor (qmul (r k) (intMax2 : ℚ)) + 1 : ℤ) : ℚ)

/-- The body of one iteration of the item picker of `part_002`: like
`part_001` but the float permission ignores the budget room, an
integer-only item whose single unit does not fit is skipped explicitly,
and the deterministic 0.9 factor is used on attempts 0 and 2. -/
def pickStep (r : ℕ → ℚ) (tMax : ℚ) (minItems attempt : ℕ) (item : Item)
    (s : AttemptState) : AttemptState :=
  let actualRemaining := max 0 (qsub item.remainingQty (lookupUsed s.used item.name))
  if actualRemaining ≤ mkRat 1 1000 then s
  else
    let roomLeft := qsub tMax s.total
    if roomLeft < 1 then s
    else
      let allowFloat := canSellInFloat item
      if allowFloat = false ∧ roomLeft < item.singleUnitCost then s
      else
        let absMax := absMaxOf item roomLeft actualRemaining
        if allowFloat then
          if absMax < mkRat 1 100 then s
          else
            let k1 : ℕ := if attempt = 0 ∨ attempt = 2 then s.k else s.k + 1
            addPick item (floatQty absMax (floatFactor r s.k attempt) s.picked minItems)
              { s with k := k1 }
        else
          let intMax : ℤ := qfloor absMax
          if intMax < 1 then s
          else
            addPick item (intQty r s.k intMax s.picked minItems) { s with k := s.k + 1 }

/-- The item picker of `part_002`: the early break is unconditional on
the deterministic attempts 0 and 2 and falls back to a coin flip
otherwise. -/
def pickItems (r : ℕ → ℚ) (tMin tMax : ℚ) (minItems attempt : ℕ) :
    List Item → AttemptState → AttemptState
  | [], s => s
  | item :: rest, s =>
    if tMin ≤ s.total ∧ minItems ≤ s.picked then
      if attempt = 0 ∨ attempt = 2 then s
      else if mkRat 1 2 < r s.k then { s with k := s.k + 1 }
      else pickItems r tMin tMax minItems attempt rest
        (pickStep r tMax minItems attempt item { s with k := s.k + 1 })
    else pickItems r tMin tMax minItems attempt rest (pickStep r tMax minItems attempt item s)

/-- The fixed context of one `part_002` composer call. -/
structure Ctx where
  r : ℕ → ℚ
  stock : List Item
  availableItems : List Item
  freshItems : List Item
  expensiveAll : List Item
  expensiveFresh : List Item
  tMin : ℚ
  tMax : ℚ
  dayRem : ℚ
  date : String
  margin : ℚ
  mode : Mode

/-- One attempt of `part_002`: validate and safe-land exactly as in
`part_001`, but on acceptance return the formatted bill annotated with
the scratch consumed-quantity map (`billData.tempUsedMap = tempUsed`)
and leave the ledger untouched. -/
def attemptOutcome (ctx : Ctx) (minItems attempt : ℕ) (pool : List Item) (k : ℕ) :
    Option GenOut × ℕ :=
  let s := pickItems ctx.r ctx.tMin ctx.tMax minItems attempt pool ⟨[], 0, 0, [], k⟩
  if validate ctx.mode ctx.tMin ctx.tMax ctx.margin minItems s.total s.picked
      ∧ safeLanding ctx.dayRem s.total ctx.margin then
    (some ⟨{ formatResult s.bill s.total ctx.tMax ctx.date with tempUsedMap := s.used },
      ctx.stock, s.k⟩, s.k)
  else (none, s.k)

/-- The attempt loop of one tier of `part_002`: the first two attempts
draw from the fresh (not-yet-used-today) pool when it is large enough
(attempt 0 expensive-first, attempt 1 shuffled); otherwise attempt 2 is
the expensive-first pass over all items and every other attempt is a
shuffle of all items. -/
def runAttempts (ctx : Ctx) (minItems : ℕ) : ℕ → ℕ → ℕ → Option GenOut × ℕ
  | 0, _, k => (none, k)
  | n + 1, attempt, k =>
    let pk : List Item × ℕ :=
      if attempt < 2 ∧ minItems ≤ ctx.freshItems.length then
        if attempt = 0 then (ctx.expensiveFresh, k) else shuffleList ctx.r k ctx.freshItems
      else
        if attempt = 2 then (ctx.expensiveAll, k) else shuffleList ctx.r k ctx.availableItems
    match attemptOutcome ctx minItems attempt pk.1 pk.2 with
    | (some out, _) => (some out, out.k)
    | (none, k2) => runAttempts ctx minItems n (attempt + 1) k2

/-- The tier loop of `part_002` (same tiers, skip rule and effort
scaling shape as `part_001`). -/
def runTiers (ctx : Ctx) (effort : ℚ) : List (ℕ × ℕ) → ℕ → GenOut
  | [], k => ⟨failBill, ctx.stock, k⟩
  | t :: rest, k =>
    if ctx.availableItems.length < t.1 then runTiers ctx effort rest k
    else
      let maxAttempts := max 1 (qfloor (qmul ((t.2 : ℕ) : ℚ) effort)).toNat
      match runAttempts ctx t.1 maxAttempts 0 k with
      | (some out, _) => out
      | (none, k2) => runTiers ctx effort rest k2

/-- `generateBillFromMap` of `part_002`: filter near-zero stock, carve
out the fresh pool from `dailyUsedItemIds`, sort all four pools, use
the steeper effort thresholds (50/200/400), and run the tier loop.  The
function returns the bill (with its `tempUsedMap`) and never touches
the stock map; the threaded ledger is returned unchanged at every
return point.  (The global `billCounter++` has no observable effect on
the result and is not modelled.) -/
def generateBillFromMap (r : ℕ → ℚ) (k : ℕ) (stock : List Item)
    (tMin tMax dayRem : ℚ) (date : String) (margin : ℚ) (mode : Mode)
    (currentFailures : ℕ) (dailyUsedItemIds : List String) : GenOut :=
  let available0 := stock.filter (fun it => mkRat 1 1000 < it.remainingQty)
  let fresh0 := available0.filter (fun it => ¬ dailyUsedItemIds.contains it.name)
  let availableItems := List.insertionSort
    (fun a b => a.singleUnitCost ≤ b.singleUnitCost) available0
  let freshItems := List.insertionSort
    (fun a b => a.singleUnitCost ≤ b.singleUnitCost) fresh0
  let expensiveAll := List.insertionSort
    (fun a b => b.singleUnitCost ≤ a.singleUnitCost) availableItems
  let expensiveFresh := List.insertionSort
    (fun a b => b.singleUnitCost ≤ a.singleUnitCost) freshItems
  if availableItems.length = 0 then ⟨failBill, stock, k⟩
  else
    let effort : ℚ :=
      if 400 < currentFailures then mkRat 1 50
      else if 200 < currentFailures then mkRat 1 10
      else if 50 < currentFailures then mkRat 1 2
      else 1
    runTiers ⟨r, stock, availableItems, freshItems, expensiveAll, expensiveFresh,
      tMin, tMax, dayRem, date, margin, mode⟩ effort baseAttempts k

end P2

end BillGen

namespace BillGen

theorem lookupUsed_nil (n : String) : lookupUsed [] n = 0 := rfl

theorem lookupUsed_cons (p : String × ℚ) (rest : List (String × ℚ)) (n : String) :
    lookupUsed (p :: rest) n = if p.1 = n then p.2 else lookupUsed rest n := by
  unfold lookupUsed
  by_cases h : p.1 = n
  · rw [List.find?_cons_of_pos _ (by simpa using h), if_pos h]
  · rw [List.find?_cons_of_neg _ (by simpa using h), if_neg h]

theorem lookupUsed_setUsed :
    ∀ (u : List (String × ℚ)) (m : String) (v : ℚ) (n : String),
      lookupUsed (setUsed u m v) n = if m = n then v else lookupUsed u n
  | [], m, v, n => by
    show lookupUsed [(m, v)] n = _
    rw [lookupUsed_cons]
  | p :: rest, m, v, n => by
    unfold setUsed
    by_cases hpm : p.1 = m
    · rw [if_pos hpm, lookupUsed_cons, lookupUsed_cons]
      by_cases hmn : m = n
      · rw [if_pos hmn, if_pos hmn]
      · rw [if_neg hmn, if_neg hmn, if_neg (by rw [hpm]; exact hmn)]
    · rw [if_neg hpm, lookupUsed_cons, lookupUsed_cons]
      by_cases hpn : p.1 = n
      · have hmn : ¬ m = n := by
          intro hEq
          exact hpm (by rw [hpn, hEq])
        rw [if_pos hpn, if_neg hmn, if_pos hpn]
      · rw [if_neg hpn, if_neg hpn, lookupUsed_setUsed rest m v n]

/-- Total quantity consumed for item name `n` across a pick list. -/
def sumPickQty (picks : List Pick) (n : String) : ℚ :=
  picks.foldl (fun a p => if p.item.name = n then qadd a p.qty else a) 0

/-- Total quantity of the lines with name `n` in a formatted bill. -/
def sumQtyFor (lines : List BillLine) (n : String) : ℚ :=
  lines.foldl (fun a l => if l.name = n then qadd a l.qty else a) 0

theorem sumPickQty_append (picks : List Pick) (p : Pick) (n : String) :
    sumPickQty (picks ++ [p]) n =
      if p.item.name = n then qadd (sumPickQty picks n) p.qty else sumPickQty picks n := by
  unfold sumPickQty
  rw [List.foldl_append]
  rfl

theorem sumQtyFor_formatResult (billArray : List Pick) (total target : ℚ)
    (date : String) (n : String) :
    sumQtyFor (formatResult billArray total target date).items n = sumPickQty billArray n := by
  unfold sumQtyFor sumPickQty formatResult
  dsimp only
  rw [List.foldl_map]

end BillGen

namespace BillGen

namespace P2

set_option maxHeartbeats 1000000 in
/-- Every step of the `part_002` item picker either only advances the
random counter or appends exactly one pick of the current item. -/
theorem pickStep_cases2 (r : ℕ → ℚ) (tMax : ℚ) (minItems attempt : ℕ) (item : Item)
    (s : AttemptState) :
    ∃ kk, pickStep r tMax minItems attempt item s = { s with k := kk } ∨
      ∃ q, pickStep r tMax minItems attempt item s =
        { bill := s.bill ++ [⟨item, q, getItemBillTotal item q⟩]
          total := qadd s.total (getItemBillTotal item q)
          picked := s.picked + 1
          used := setUsed s.used item.name (qadd (lookupUsed s.used item.name) q)
          k := kk } := by
  unfold pickStep
  dsimp only
  repeat' split
  all_goals first
    | exact ⟨s.k, Or.inl rfl⟩
    | exact P1.addPick_shape item _ s _

/-- The `part_002` picker keeps the scratch consumed-quantity map in
agreement with the picked lines: for every item name, the recorded
consumption equals the summed picked quantity. -/
theorem pickItems_used (r : ℕ → ℚ) (tMin tMax : ℚ) (minItems attempt : ℕ) :
    ∀ (pool : List Item) (s : AttemptState),
      (∀ n, lookupUsed s.used n = sumPickQty s.bill n) →
      ∀ n, lookupUsed (pickItems r tMin tMax minItems attempt pool s).used n =
        sumPickQty (pickItems r tMin tMax minItems attempt pool s).bill n
  | [], _, hinv => hinv
  | item :: rest, s, hinv => by
    have step : ∀ s0 : AttemptState, (∀ n, lookupUsed s0.used n = sumPickQty s0.bill n) →
        ∀ n, lookupUsed (pickItems r tMin tMax minItems attempt rest
            (pickStep r tMax minItems attempt item s0)).used n =
          sumPickQty (pickItems r tMin tMax minItems attempt rest
            (pickStep r tMax minItems attempt item s0)).bill n := by
      intro s0 g
      obtain ⟨kk, hc | ⟨q, hc⟩⟩ := pickStep_cases2 r tMax minItems attempt item s0
      · rw [hc]
        exact pickItems_used r tMin tMax minItems attempt rest { s0 with k := kk } g
      · rw [hc]
        refine pickItems_used r tMin tMax minItems attempt rest _ ?_
        intro n
        show lookupUsed (setUsed s0.used item.name (qadd (lookupUsed s0.used item.name) q)) n
          = sumPickQty (s0.bill ++ [⟨item, q, getItemBillTotal item q⟩]) n
        rw [lookupUsed_setUsed, sumPickQty_append]
        by_cases hn : item.name = n
        · rw [if_pos hn, if_pos hn, ← hn, g item.name]
        · rw [if_neg hn, if_neg hn]
          exact g n
    rw [pickItems]
    split
    · split
      · exact hinv
      · split
        · exact hinv
        · exact step { s with k := s.k + 1 } hinv
    · exact step s hinv

theorem attemptOutcome_some2 {ctx : Ctx} {minItems attempt : ℕ} {pool : List Item}
    {k : ℕ} {out : GenOut} {k2 : ℕ}
    (h : attemptOutcome ctx minItems attempt pool k = (some out, k2)) :
    ∃ s : AttemptState,
      s = pickItems ctx.r ctx.tMin ctx.tMax minItems attempt pool ⟨[], 0, 0, [], k⟩ ∧
      out.bill = { formatResult s.bill s.total ctx.tMax ctx.date with tempUsedMap := s.used } ∧
      out.stock = ctx.stock := by
  unfold attemptOutcome at h
  dsimp only at h
  split at h
  · have hfst := congrArg Prod.fst h
    simp only at hfst
    have hout := Option.some.inj hfst
    refine ⟨_, rfl, ?_, ?_⟩
    · exact (congrArg GenOut.bill hout).symm
    · exact (congrArg GenOut.stock hout).symm
  · simp at h

theorem attemptOutcome_some_success2 {ctx : Ctx} {minItems attempt : ℕ} {pool : List Item}
    {k : ℕ} {out : GenOut} {k2 : ℕ}
    (h : attemptOutcome ctx minItems attempt pool k = (some out, k2)) :
    out.bill.success = true := by
  obtain ⟨s, _, hbill, _⟩ := attemptOutcome_some2 h
  rw [hbill]
  rfl

theorem runAttempts_some2 {ctx : Ctx} {minItems : ℕ} :
    ∀ {n attempt k : ℕ} {out : GenOut} {kres : ℕ},
      runAttempts ctx minItems n attempt k = (some out, kres) →
      ∃ a pool k1 kk, attemptOutcome ctx minItems a pool k1 = (some out, kk)
  | 0, _, _, _, _, h => by simp [runAttempts] at h
  | n + 1, attempt, k, out, kres, h => by
    rw [runAttempts] at h
    rcases ha : attemptOutcome ctx minItems attempt
        (if attempt < 2 ∧ minItems ≤ ctx.freshItems.length then
          if attempt = 0 then (ctx.expensiveFresh, k) else shuffleList ctx.r k ctx.freshItems
        else
          if attempt = 2 then (ctx.expensiveAll, k)
          else shuffleList ctx.r k ctx.availableItems).1
        (if attempt < 2 ∧ minItems ≤ ctx.freshItems.length then
          if attempt = 0 then (ctx.expensiveFresh, k) else shuffleList ctx.r k ctx.freshItems
        else
          if attempt = 2 then (ctx.expensiveAll, k)
          else shuffleList ctx.r k ctx.availableItems).2 with ⟨o, k2⟩
    rw [ha] at h
    cases o with
    | some o =>
      have hout : o = out := by
        have := congrArg Prod.fst h
        simpa using this
      subst hout
      exact ⟨attempt, _, _, _, ha⟩
    | none =>
      exact runAttempts_some2 h

theorem runTiers_success2 {ctx : Ctx} {effort : ℚ} :
    ∀ {tiers : List (ℕ × ℕ)} {k : ℕ},
      (runTiers ctx effort tiers k).bill.success = true →
      ∃ a minItems pool k1 kk,
        attemptOutcome ctx minItems a pool k1 = (some (runTiers ctx effort tiers k), kk)
  | [], k, h => by simp [runTiers, failBill] at h
  | t :: rest, k, h => by
    rw [runTiers] at h ⊢
    dsimp only at h ⊢
    split at h
    · rename_i hlen
      rw [if_pos hlen]
      exact runTiers_success2 h
    · rename_i hlen
      rw [if_neg hlen]
      rcases hr : runAttempts ctx t.1
          (max 1 (qfloor (qmul ((t.2 : ℕ) : ℚ) effort)).toNat) 0 k with ⟨o, k2⟩
      rw [hr] at h
      cases o with
      | some o =>
        dsimp only at h ⊢
        obtain ⟨a, pool, k1, kk, ha⟩ := runAttempts_some2 hr
        exact ⟨a, t.1, pool, k1, kk, ha⟩
      | none =>
        dsimp only at h ⊢
        exact runTiers_success2 h

theorem runAttempts_stock {ctx : Ctx} {minItems : ℕ} {n attempt k : ℕ} {out : GenOut}
    {kres : ℕ} (h : runAttempts ctx minItems n attempt k = (some out, kres)) :
    out.stock = ctx.stock := by
  obtain ⟨a, pool, k1, kk, ha⟩ := runAttempts_some2 h
  obtain ⟨s, _, _, hstock⟩ := attemptOutcome_some2 ha
  exact hstock

theorem runTiers_stock {ctx : Ctx} {effort : ℚ} :
    ∀ {tiers : List (ℕ × ℕ)} {k : ℕ}, (runTiers ctx effort tiers k).stock = ctx.stock
  | [], k => rfl
  | t :: rest, k => by
    rw [runTiers]
    dsimp only
    split
    · exact runTiers_stock
    · rcases hr : runAttempts ctx t.1
          (max 1 (qfloor (qmul ((t.2 : ℕ) : ℚ) effort)).toNat) 0 k with ⟨o, k2⟩
      cases o with
      | some o =>
        dsimp only
        exact runAttempts_stock hr
      | none =>
        dsimp only
        exact runTiers_stock

end P2

end BillGen

namespace BillGen

/-- C10: the `part_002` composer never mutates the stock map - even on
success the post-call ledger equals the input ledger - and on success
the consumed quantities are reported to the caller through the bill's
`tempUsedMap`: for every item name, the recorded consumption equals the
total quantity of that item's lines in the returned bill. -/
theorem claim10_pure_composer (r : ℕ → ℚ) (k : ℕ) (stock : List Item)
    (tMin tMax dayRem : ℚ) (date : String) (margin : ℚ) (mode : Mode) (fails : ℕ)
    (dailyUsed : List String) :
    (P2.generateBillFromMap r k stock tMin tMax dayRem date margin mode fails
        dailyUsed).stock = stock ∧
    ((P2.generateBillFromMap r k stock tMin tMax dayRem date margin mode fails
          dailyUsed).bill.success = true →
      ∀ n : String,
        lookupUsed (P2.generateBillFromMap r k stock tMin tMax dayRem date margin mode fails
          dailyUsed).bill.tempUsedMap n =
        sumQtyFor (P2.generateBillFromMap r k stock tMin tMax dayRem date margin mode fails
          dailyUsed).bill.items n) := by
  constructor
  · unfold P2.generateBillFromMap
    dsimp only
    split
    · rfl
    · exact P2.runTiers_stock
  · intro h n
    have hsucc : ∃ (c : P2.Ctx) (a minItems : ℕ) (pool : List Item) (k1 kk : ℕ),
        P2.attemptOutcome c minItems a pool k1 =
          (some (P2.generateBillFromMap r k stock tMin tMax dayRem date margin mode fails
            dailyUsed), kk) := by
      unfold P2.generateBillFromMap at h ⊢
      dsimp only at h ⊢
      split at h
      · simp [failBill] at h
      · rename_i hlen
        split
        · rename_i hlen2
          exact absurd hlen2 hlen
        · exact ⟨_, P2.runTiers_success2 h⟩
    obtain ⟨c, a, minItems, pool, k1, kk, ha⟩ := hsucc
    obtain ⟨s, hs, hbill, _⟩ := P2.attemptOutcome_some2 ha
    rw [hbill]
    have hitems : ({ formatResult s.bill s.total c.tMax c.date with
        tempUsedMap := s.used } : Bill).items
          = (formatResult s.bill s.total c.tMax c.date).items := rfl
    show lookupUsed s.used n = sumQtyFor ({ formatResult s.bill s.total c.tMax c.date with
      tempUsedMap := s.used } : Bill).items n
    rw [hitems, sumQtyFor_formatResult]
    subst hs
    exact P2.pickItems_used c.r c.tMin c.tMax minItems a pool ⟨[], 0, 0, [], k1⟩
      (fun _ => rfl) n

/-- C10 witness: a concrete successful `part_002` call (one item,
RANGE [10, 20]) leaves the one-item ledger unchanged and reports the
single consumed unit of item A in `tempUsedMap`. -/
theorem claim10_pure_composer_witness :
    (P2.generateBillFromMap rZero 0 [wItem] 10 20 10 "2024-01-05" 5 Mode.RANGE 0
        []).stock = [wItem] ∧
    (P2.generateBillFromMap rZero 0 [wItem] 10 20 10 "2024-01-05" 5 Mode.RANGE 0
        []).bill.success = true ∧
    lookupUsed (P2.generateBillFromMap rZero 0 [wItem] 10 20 10 "2024-01-05" 5 Mode.RANGE 0
        []).bill.tempUsedMap "A" =
      sumQtyFor (P2.generateBillFromMap rZero 0 [wItem] 10 20 10 "2024-01-05" 5 Mode.RANGE 0
        []).bill.items "A" :=
  ⟨(claim10_pure_composer rZero 0 [wItem] 10 20 10 "2024-01-05" 5 Mode.RANGE 0 []).1,
    by decide,
    (claim10_pure_composer rZero 0 [wItem] 10 20 10 "2024-01-05" 5 Mode.RANGE 0 []).2
      (by decide) "A"⟩

end BillGen
